import Mathlib

/-!
Verification of the faust core sources (`faust/channels.py`,
`faust/tables/table.py`, `faust/stores/memory.py`) against their
natural-language specification.  Python code is shallowly embedded:
stateful methods become explicit state-passing functions, exceptions
become `Except`, and Python dictionaries become association lists in
insertion order.
-/

set_option autoImplicit false

namespace Faust

/-! ## Acknowledgment state of a raw record (`Event.ack`, channels.py 145-151) -/

/-- Acknowledgment state of one raw transport record.  `refcount` is the
record's mutable reference count (an integer, mirroring Python's unbounded
ints which can go negative on extra decrements); `ackCalls` counts
invocations of `Event.ack()` on the record; `acked` counts transport
acknowledgments (`self.app.consumer.ack(message)`). -/
structure AckState where
  refcount : Int
  ackCalls : Nat
  acked : Nat
deriving DecidableEq, Repr

/-- Modelled from the spec: `Message.decref` lives in `faust/types`, outside
the provided sources.  The spec describes "a mutable reference count used for
multi-consumer acknowledgment" which each `ack()` decrements. -/
def decref (s : AckState) : AckState :=
  { s with refcount := s.refcount - 1 }

/-- Embedding of `Event.ack` (channels.py 145-151): decrement the reference
count; if there are no more references (`not message.refcount`, i.e. the
count is exactly zero — a negative count is truthy in Python), acknowledge
the record to the transport consumer. -/
def ack (s : AckState) : AckState :=
  let s1 := { decref s with ackCalls := s.ackCalls + 1 }
  if s1.refcount = 0 then { s1 with acked := s1.acked + 1 } else s1

/-- Result of calling `ack()` a total of `k` times in sequence. -/
def ackN : Nat → AckState → AckState
  | 0, s => s
  | k + 1, s => ack (ackN k s)

/-- Python `async with` over an Event (channels.py 156-163): `__aenter__`
returns the event itself, the body runs, and `__aexit__` runs on every
completion path — normal or raising — calling `ack()`; since `__aexit__`
returns `None`, a body failure still propagates (the body's result is
passed through unchanged). -/
def withEventScope {ε α : Type} (body : AckState → Except ε α × AckState)
    (s : AckState) : Except ε α × AckState :=
  let r := body s
  (r.1, ack r.2)

theorem ackN_spec (N k : Nat) (h : 1 ≤ N) :
    ackN k { refcount := (N : Int), ackCalls := 0, acked := 0 } =
      { refcount := (N : Int) - (k : Int), ackCalls := k,
        acked := if N ≤ k then 1 else 0 } := by
  induction k with
  | zero =>
    have h0 : ¬ N ≤ 0 := by omega
    simp [ackN, h0]
  | succ k ih =>
    rw [ackN, ih]
    by_cases hN : N = k + 1
    · have h0 : (N : Int) - (k : Int) - 1 = 0 := by omega
      have hle : N ≤ k + 1 := by omega
      have hnle : ¬ N ≤ k := by omega
      simp [ack, decref, h0, hle, hnle]
      omega
    · have h0 : ¬ ((N : Int) - (k : Int) - 1 = 0) := by omega
      simp [ack, decref, h0]
      constructor
      · omega
      · by_cases hk : N ≤ k
        · have hk1 : N ≤ k + 1 := by omega
          simp [hk, hk1]
        · have hk1 : ¬ N ≤ k + 1 := by omega
          simp [hk, hk1]

/-- Claim C1: for a record with reference count `N ≥ 1`, after `k` calls to
`Event.ack()` the transport acknowledgment has fired exactly once if `k ≥ N`
and not at all if `k < N`: it fires on the `N`-th call and never again. -/
theorem claim1_ack_fires_exactly_once_on_nth (N k : Nat) (h : 1 ≤ N) :
    (ackN k { refcount := (N : Int), ackCalls := 0, acked := 0 }).acked =
      if N ≤ k then 1 else 0 := by
  rw [ackN_spec N k h]

theorem claim1_witness :
    1 ≤ 2 ∧
      (ackN 5 { refcount := ((2 : Nat) : Int), ackCalls := 0,
                acked := 0 }).acked = if 2 ≤ 5 then 1 else 0 :=
  ⟨by decide, claim1_ack_fires_exactly_once_on_nth 2 5 (by decide)⟩

/-- Claim C7: using an Event as a scoped resource invokes `ack()` exactly
once on exit, on every completion path: whatever the body did (succeeded or
failed), the exit path performs exactly one further `ack()` call and passes
the body's outcome through unchanged. -/
theorem claim7_scope_acks_exactly_once {ε α : Type}
    (body : AckState → Except ε α × AckState) (s : AckState) :
    (withEventScope body s).2.ackCalls = (body s).2.ackCalls + 1 ∧
      (withEventScope body s).1 = (body s).1 := by
  constructor
  · show (ack (body s).2).ackCalls = (body s).2.ackCalls + 1
    simp only [ack, decref]
    split <;> rfl
  · rfl

/-! ## Events, sentinel arguments and outbound sends (channels.py 24-25, 77-143, 225-251) -/

/-- Raw transport record as the channel code uses it: `message.key` and
`message.value` are the raw, undeserialized key and value.  Topic, partition,
offset and the reference count are not consulted by the embedded operations
and are omitted. -/
structure Message (κ ν : Type) where
  key : κ
  value : ν
deriving DecidableEq, Repr

/-- Embedding of `Event` (channels.py 67-75): a decoded `key` and `value`
plus the originating raw record (the `app` field is ambient and omitted). -/
structure Event (κ ν : Type) where
  key : κ
  value : ν
  message : Message κ ν
deriving DecidableEq, Repr

/-- Embedding of the `USE_EXISTING_KEY` / `USE_EXISTING_VALUE` sentinel
defaults of `Event.send` and `Event.forward` (channels.py 24-25): an argument
is either left at the sentinel default or explicitly supplied. -/
inductive Arg (α : Type) where
  | useExisting
  | explicit (a : α)
deriving DecidableEq, Repr

/-- Payload that `Event._send` forwards to `app._maybe_attach`
(channels.py 115-126): the resolved key and value plus the `force` flag.
Partition, serializers and callback are forwarded unchanged and omitted. -/
structure Dispatched (κ ν : Type) where
  key : κ
  value : ν
  force : Bool
deriving DecidableEq, Repr

/-- Embedding of `Event.send` (channels.py 77-94): a key or value left at the
sentinel default is replaced by this Event's decoded key or value before
dispatch. -/
def Event.send {κ ν : Type} (ev : Event κ ν) (key : Arg κ) (value : Arg ν)
    (force : Bool) : Dispatched κ ν :=
  { key := match key with
      | .useExisting => ev.key
      | .explicit k => k
    value := match value with
      | .useExisting => ev.value
      | .explicit v => v
    force := force }

/-- Embedding of `Event.forward` (channels.py 96-113): a key or value left at
the sentinel default is replaced by the raw, undeserialized key or value of
the originating record before dispatch. -/
def Event.forward {κ ν : Type} (ev : Event κ ν) (key : Arg κ)
    (value : Arg ν) (force : Bool) : Dispatched κ ν :=
  { key := match key with
      | .useExisting => ev.message.key
      | .explicit k => k
    value := match value with
      | .useExisting => ev.message.value
      | .explicit v => v
    force := force }

/-- Claim C6: `Event.send` with arguments left at their sentinel defaults
dispatches this Event's decoded key/value, `Event.forward` dispatches the
originating record's raw key/value, and explicitly supplied arguments are
used unchanged by both, in every combination. -/
theorem claim6_send_inherits_decoded_forward_inherits_raw {κ ν : Type}
    (ev : Event κ ν) (k : κ) (v : ν) (f : Bool) :
    ev.send .useExisting .useExisting f = ⟨ev.key, ev.value, f⟩ ∧
    ev.send (.explicit k) .useExisting f = ⟨k, ev.value, f⟩ ∧
    ev.send .useExisting (.explicit v) f = ⟨ev.key, v, f⟩ ∧
    ev.send (.explicit k) (.explicit v) f = ⟨k, v, f⟩ ∧
    ev.forward .useExisting .useExisting f
      = ⟨ev.message.key, ev.message.value, f⟩ ∧
    ev.forward (.explicit k) .useExisting f = ⟨k, ev.message.value, f⟩ ∧
    ev.forward .useExisting (.explicit v) f = ⟨ev.message.key, v, f⟩ ∧
    ev.forward (.explicit k) (.explicit v) f = ⟨k, v, f⟩ :=
  ⟨rfl, rfl, rfl, rfl, rfl, rfl, rfl, rfl⟩

/-- Outcome of `Channel.send` (channels.py 225-251).  `attached` is the
deferred path through `Event._attach` / `app._send_attached`; modelled from
the spec, which describes it as buffering the send against the triggering
event's record so it is only published once that record is committed.
`publishedNow` is the immediate `_send_now` path. -/
inductive SendOutcome (κ ν : Type) where
  | attached (record : Message κ ν) (key : κ) (value : ν)
  | publishedNow (key : κ) (value : ν)
deriving DecidableEq, Repr

/-- Embedding of `Channel.send` (channels.py 225-251): unless `force` is set,
consult `current_event()` (modelled from the spec as an explicit
`currentEvent` argument, since `faust/streams.py` is not among the provided
sources); if an event is being processed, attach the send to its record via
`Event._attach`, otherwise fall through to the immediate `_send_now` path. -/
def Channel.send {κ ν : Type} (currentEvent : Option (Event κ ν)) (key : κ)
    (value : ν) (force : Bool) : SendOutcome κ ν :=
  if !force then
    match currentEvent with
    | some ev => .attached ev.message key value
    | none => .publishedNow key value
  else
    .publishedNow key value

/-- Claim C3: with `force = false` and an in-flight Event, `Channel.send`
attaches the send to that Event's record instead of publishing immediately;
with no in-flight Event it publishes immediately; with `force = true` it
publishes immediately regardless of any in-flight Event. -/
theorem claim3_send_attaches_unless_forced {κ ν : Type} (ev : Event κ ν)
    (ce : Option (Event κ ν)) (k : κ) (v : ν) :
    Channel.send (some ev) k v false = .attached ev.message k v ∧
    Channel.send (none : Option (Event κ ν)) k v false = .publishedNow k v ∧
    Channel.send ce k v true = .publishedNow k v :=
  ⟨rfl, rfl, rfl⟩

/-! ## Channel decode and deliver (channels.py 331-403) -/

/-- Decode strategy captured once at `Channel.__init__` (channels.py
331-338 and 356-363): the serializer registry's `loads_key` and
`loads_value`, which either return a decoded key/value or fail with
`KeyDecodeError` / `ValueDecodeError` (error payload type `ε`). -/
structure Channel (κ ν ε : Type) where
  loadsKey : κ → Except ε κ
  loadsValue : ν → Except ε ν

/-- Observable channel state: the queue of enqueued events (modelled
unbounded; capacity/backpressure is outside the claims considered here)
and, for each error hook, the list of (exception, record) pairs the hook
was invoked with. -/
structure ChannelState (κ ν ε : Type) where
  queue : List (Event κ ν)
  keyErrors : List (ε × Message κ ν)
  valueErrors : List (ε × Message κ ν)
deriving DecidableEq, Repr

/-- Embedding of `Channel.on_key_decode_error` (channels.py 396-399): the
default hook logs the exception together with the record and swallows it;
modelled as recording the (exception, record) pair. -/
def Channel.on_key_decode_error {κ ν ε : Type} (exc : ε) (m : Message κ ν)
    (s : ChannelState κ ν ε) : ChannelState κ ν ε :=
  { s with keyErrors := s.keyErrors ++ [(exc, m)] }

/-- Embedding of `Channel.on_value_decode_error` (channels.py 400-403),
analogous to the key hook. -/
def Channel.on_value_decode_error {κ ν ε : Type} (exc : ε)
    (m : Message κ ν) (s : ChannelState κ ν ε) : ChannelState κ ν ε :=
  { s with valueErrors := s.valueErrors ++ [(exc, m)] }

/-- Embedding of `Channel._create_event` (channels.py 383-385). -/
def Channel.create_event {κ ν : Type} (k : κ) (v : ν) (m : Message κ ν) :
    Event κ ν :=
  ⟨k, v, m⟩

/-- Embedding of the closure built by `Channel._compile_decode`
(channels.py 331-351): decode the key, on `KeyDecodeError` run the key hook
and return no event; otherwise decode the value, on `ValueDecodeError` run
the value hook and return no event; otherwise return the constructed event
without enqueueing it. -/
def Channel.decode {κ ν ε : Type} (c : Channel κ ν ε) (m : Message κ ν)
    (s : ChannelState κ ν ε) : Option (Event κ ν) × ChannelState κ ν ε :=
  match c.loadsKey m.key with
  | .error exc => (none, Channel.on_key_decode_error exc m s)
  | .ok k =>
    match c.loadsValue m.value with
    | .error exc => (none, Channel.on_value_decode_error exc m s)
    | .ok v => (some (Channel.create_event k v m), s)

/-- Embedding of the closure built by `Channel._compile_deliver`
(channels.py 356-381): same decode logic as `Channel.decode`, but on
success the constructed event is enqueued on the channel's queue.  The
function is total: decode failures are routed to the hooks and never
propagate past the channel. -/
def Channel.deliver {κ ν ε : Type} (c : Channel κ ν ε) (m : Message κ ν)
    (s : ChannelState κ ν ε) : ChannelState κ ν ε :=
  match c.loadsKey m.key with
  | .error exc => Channel.on_key_decode_error exc m s
  | .ok k =>
    match c.loadsValue m.value with
    | .error exc => Channel.on_value_decode_error exc m s
    | .ok v => { s with queue := s.queue ++ [Channel.create_event k v m] }

/-- Delivery of a batch of raw records, in order. -/
def Channel.deliverAll {κ ν ε : Type} (c : Channel κ ν ε)
    (ms : List (Message κ ν)) (s : ChannelState κ ν ε) : ChannelState κ ν ε :=
  ms.foldl (fun acc m => c.deliver m acc) s

theorem deliver_queue_congr {κ ν ε : Type} (c : Channel κ ν ε)
    (m : Message κ ν) (s1 s2 : ChannelState κ ν ε)
    (h : s1.queue = s2.queue) :
    (c.deliver m s1).queue = (c.deliver m s2).queue := by
  unfold Channel.deliver
  cases c.loadsKey m.key with
  | error exc => simpa [Channel.on_key_decode_error]
  | ok k =>
    cases c.loadsValue m.value with
    | error exc => simpa [Channel.on_value_decode_error]
    | ok v => simp [h]

theorem deliverAll_queue_congr {κ ν ε : Type} (c : Channel κ ν ε)
    (ms : List (Message κ ν)) :
    ∀ s1 s2 : ChannelState κ ν ε, s1.queue = s2.queue →
      (c.deliverAll ms s1).queue = (c.deliverAll ms s2).queue := by
  induction ms with
  | nil =>
    intro s1 s2 h
    simpa [Channel.deliverAll]
  | cons m rest ih =>
    intro s1 s2 h
    simp only [Channel.deliverAll, List.foldl_cons] at *
    exact ih (c.deliver m s1) (c.deliver m s2)
      (deliver_queue_congr c m s1 s2 h)

/-- Claim C4: when a record's key fails to decode, `deliver` invokes the key
hook with the offending exception and the record, enqueues no event, changes
nothing else, and never raises (it is total); deliveries of subsequent
records then enqueue exactly the events they would have enqueued anyway.
Value-decode failure behaves the same via the value hook. -/
theorem claim4_decode_failure_isolated {κ ν ε : Type} (c : Channel κ ν ε)
    (m : Message κ ν) (s : ChannelState κ ν ε) :
    (∀ exc, c.loadsKey m.key = .error exc →
      c.deliver m s = { s with keyErrors := s.keyErrors ++ [(exc, m)] } ∧
      ∀ rest, (c.deliverAll rest (c.deliver m s)).queue
        = (c.deliverAll rest s).queue) ∧
    (∀ k exc, c.loadsKey m.key = .ok k →
      c.loadsValue m.value = .error exc →
      c.deliver m s
        = { s with valueErrors := s.valueErrors ++ [(exc, m)] } ∧
      ∀ rest, (c.deliverAll rest (c.deliver m s)).queue
        = (c.deliverAll rest s).queue) := by
  constructor
  · intro exc hk
    have hd : c.deliver m s
        = { s with keyErrors := s.keyErrors ++ [(exc, m)] } := by
      unfold Channel.deliver
      rw [hk]
      rfl
    refine ⟨hd, fun rest => ?_⟩
    exact deliverAll_queue_congr c rest _ _ (by rw [hd])
  · intro k exc hk hv
    have hd : c.deliver m s
        = { s with valueErrors := s.valueErrors ++ [(exc, m)] } := by
      unfold Channel.deliver
      rw [hk, hv]
      rfl
    refine ⟨hd, fun rest => ?_⟩
    exact deliverAll_queue_congr c rest _ _ (by rw [hd])

/-- Example channel over naturals: key 0 fails key decode with exception 7,
value 9 fails value decode with exception 8, all else decodes to itself. -/
def chanA : Channel Nat Nat Nat :=
  ⟨fun k => if k = 0 then .error 7 else .ok k,
   fun v => if v = 9 then .error 8 else .ok v⟩

/-- Empty channel state over naturals. -/
def emptyChanState : ChannelState Nat Nat Nat :=
  ⟨[], [], []⟩

theorem claim4_witness :
    (chanA.loadsKey 0 = .error 7 ∧
      chanA.deliver ⟨0, 5⟩ emptyChanState
        = { emptyChanState with keyErrors := [(7, ⟨0, 5⟩)] } ∧
      (chanA.deliverAll [⟨1, 1⟩] (chanA.deliver ⟨0, 5⟩ emptyChanState)).queue
        = (chanA.deliverAll [⟨1, 1⟩] emptyChanState).queue) ∧
    (chanA.loadsKey 1 = .ok 1 ∧ chanA.loadsValue 9 = .error 8 ∧
      chanA.deliver ⟨1, 9⟩ emptyChanState
        = { emptyChanState with valueErrors := [(8, ⟨1, 9⟩)] } ∧
      (chanA.deliverAll [⟨2, 2⟩] (chanA.deliver ⟨1, 9⟩ emptyChanState)).queue
        = (chanA.deliverAll [⟨2, 2⟩] emptyChanState).queue) :=
  ⟨⟨rfl,
    ((claim4_decode_failure_isolated chanA ⟨0, 5⟩ emptyChanState).1 7
      rfl).1,
    ((claim4_decode_failure_isolated chanA ⟨0, 5⟩ emptyChanState).1 7
      rfl).2 [⟨1, 1⟩]⟩,
   ⟨rfl, rfl,
    ((claim4_decode_failure_isolated chanA ⟨1, 9⟩ emptyChanState).2 1 8
      rfl rfl).1,
    ((claim4_decode_failure_isolated chanA ⟨1, 9⟩ emptyChanState).2 1 8
      rfl rfl).2 [⟨2, 2⟩]⟩⟩

/-- Claim C8: `deliver` performs exactly the deserialization and error-hook
handling of `decode`, and on success enqueues exactly the event that
`decode` returns; on failure it leaves the state exactly as `decode` does. -/
theorem claim8_deliver_refines_decode {κ ν ε : Type} (c : Channel κ ν ε)
    (m : Message κ ν) (s : ChannelState κ ν ε) :
    c.deliver m s =
      (match c.decode m s with
       | (some ev, s1) => { s1 with queue := s1.queue ++ [ev] }
       | (none, s1) => s1) := by
  unfold Channel.deliver Channel.decode
  cases c.loadsKey m.key with
  | error exc => rfl
  | ok k =>
    cases c.loadsValue m.value with
    | error exc => rfl
    | ok v => rfl

/-! ## Association-list model of Python dicts -/

/-- Lookup in a Python dict modelled as an association list in insertion
order (keys are unique, so the first match is the match). -/
def lookupD {κ α : Type} [DecidableEq κ] : List (κ × α) → κ → Option α
  | [], _ => none
  | (k, v) :: rest, q => if q = k then some v else lookupD rest q

/-- Python dict item assignment (`d[key] = value`, also the per-entry step
of `dict.update`): replace the value at the existing key, keeping its
insertion position, or append a new entry at the end. -/
def updateEntry {κ α : Type} [DecidableEq κ] :
    List (κ × α) → κ → α → List (κ × α)
  | [], k, v => [(k, v)]
  | (k1, v1) :: rest, k, v =>
    if k = k1 then (k1, v) :: rest else (k1, v1) :: updateEntry rest k v

/-- Python dict item deletion (`del d[key]`): drop the entry for the key. -/
def eraseEntry {κ α : Type} [DecidableEq κ] :
    List (κ × α) → κ → List (κ × α)
  | [], _ => []
  | (k1, v1) :: rest, k =>
    if k = k1 then eraseEntry rest k else (k1, v1) :: eraseEntry rest k

/-- Value of the last entry for a given key in a list of (key, value)
pairs, if any: the "last write wins" function. -/
def lastVal {κ α : Type} [DecidableEq κ] : List (κ × α) → κ → Option α
  | [], _ => none
  | (k, v) :: rest, q =>
    match lastVal rest q with
    | some w => some w
    | none => if q = k then some v else none

theorem lookupD_updateEntry {κ α : Type} [DecidableEq κ]
    (d : List (κ × α)) (k q : κ) (v : α) :
    lookupD (updateEntry d k v) q = if q = k then some v else lookupD d q := by
  induction d with
  | nil => simp [updateEntry, lookupD]
  | cons p rest ih =>
    obtain ⟨k1, v1⟩ := p
    by_cases h1 : k = k1
    · subst h1
      by_cases hq : q = k <;> simp [updateEntry, lookupD, hq]
    · by_cases hq : q = k1
      · subst hq
        have hqk : ¬ q = k := fun hh => h1 hh.symm
        simp [updateEntry, h1, lookupD, hqk]
      · simp [updateEntry, h1, lookupD, hq, ih]

theorem lookupD_eraseEntry {κ α : Type} [DecidableEq κ]
    (d : List (κ × α)) (k q : κ) :
    lookupD (eraseEntry d k) q = if q = k then none else lookupD d q := by
  induction d with
  | nil => simp [eraseEntry, lookupD]
  | cons p rest ih =>
    obtain ⟨k1, v1⟩ := p
    by_cases h1 : k = k1
    · subst h1
      by_cases hq : q = k
      · subst hq
        simp only [eraseEntry, if_pos rfl]
        simpa using ih
      · simp [eraseEntry, lookupD, hq, ih]
    · by_cases hq : q = k1
      · subst hq
        have hqk : ¬ q = k := fun hh => h1 hh.symm
        simp [eraseEntry, h1, lookupD, hqk, ih]
      · simp [eraseEntry, h1, lookupD, hq, ih]

/-! ## Table (tables/table.py) and in-memory Store (stores/memory.py) -/

/-- Sensor notification emitted by the table hooks
(`_sensor_on_get` / `_sensor_on_set` / `_sensor_on_del`). -/
inductive SensorOp (κ ν : Type) where
  | onGet (k : κ)
  | onSet (k : κ) (v : ν)
  | onDel (k : κ)
deriving DecidableEq, Repr

/-- Observable state of a Table: the backing mapping (`self.data`), the
changelog entries appended so far (`none` is the deletion tombstone), the
keys whose TTL deadline was refreshed, and the sensor notifications
emitted. -/
structure TableState (κ ν : Type) where
  data : List (κ × ν)
  changelog : List (κ × Option ν)
  ttlKeys : List κ
  sensors : List (SensorOp κ ν)
deriving DecidableEq, Repr

/-- Static table configuration: the optional default-value factory
(`self.default`) and whether a per-key TTL is configured. -/
structure TableConfig (ν : Type) where
  default : Option (Unit → ν)
  hasTtl : Bool

/-- Fresh, empty table state. -/
def emptyTable {κ ν : Type} : TableState κ ν :=
  ⟨[], [], [], []⟩

/-- Modelled from the spec: `Collection._send_changelog` (faust/tables/base.py
is not among the provided sources) appends "a changelog entry (key, value)
for this table's changelog topic"; a deletion appends the tombstone `none`. -/
def send_changelog {κ ν : Type} (st : TableState κ ν) (k : κ)
    (v : Option ν) : TableState κ ν :=
  { st with changelog := st.changelog ++ [(k, v)] }

/-- Modelled from the spec: `_maybe_set_key_ttl` (faust/tables/base.py is not
among the provided sources) refreshes "the key's TTL deadline if TTL is
configured"; the deadline value is abstracted, only the refreshed key is
recorded. -/
def maybe_set_key_ttl {κ ν : Type} (cfg : TableConfig ν)
    (st : TableState κ ν) (k : κ) : TableState κ ν :=
  if cfg.hasTtl then { st with ttlKeys := st.ttlKeys ++ [k] } else st

/-- Modelled from the spec: `_maybe_del_key_ttl` (faust/tables/base.py is not
among the provided sources) clears "the key's TTL" if TTL is configured. -/
def maybe_del_key_ttl {κ ν : Type} [DecidableEq κ] (cfg : TableConfig ν)
    (st : TableState κ ν) (k : κ) : TableState κ ν :=
  if cfg.hasTtl then
    { st with ttlKeys := st.ttlKeys.filter (fun x => x ≠ k) }
  else st

/-- Embedding of `Table.on_key_get` (table.py 55-56): notify sensors only. -/
def Table.on_key_get {κ ν : Type} (st : TableState κ ν) (k : κ) :
    TableState κ ν :=
  { st with sensors := st.sensors ++ [SensorOp.onGet k] }

/-- Embedding of `Table.on_key_set` (table.py 58-61): append one changelog
entry `(key, value)`, refresh the key's TTL if configured, notify sensors. -/
def Table.on_key_set {κ ν : Type} (cfg : TableConfig ν)
    (st : TableState κ ν) (k : κ) (v : ν) : TableState κ ν :=
  let s1 := send_changelog st k (some v)
  let s2 := maybe_set_key_ttl cfg s1 k
  { s2 with sensors := s2.sensors ++ [SensorOp.onSet k v] }

/-- Embedding of `Table.on_key_del` (table.py 63-66): append one changelog
tombstone `(key, none)`, clear the key's TTL if configured, notify sensors. -/
def Table.on_key_del {κ ν : Type} [DecidableEq κ] (cfg : TableConfig ν)
    (st : TableState κ ν) (k : κ) : TableState κ ν :=
  let s1 := send_changelog st k none
  let s2 := maybe_del_key_ttl cfg s1 k
  { s2 with sensors := s2.sensors ++ [SensorOp.onDel k] }

/-- Modelled from the spec (mapping contract of the table, realised by the
external `ManagedUserDict` collaborator): `table[k] = v` first runs the
`on_key_set` hook, then updates the backing mapping. -/
def Table.set {κ ν : Type} [DecidableEq κ] (cfg : TableConfig ν)
    (st : TableState κ ν) (k : κ) (v : ν) : TableState κ ν :=
  let s1 := Table.on_key_set cfg st k v
  { s1 with data := updateEntry s1.data k v }

/-- Modelled from the spec (mapping contract of the table, realised by the
external `ManagedUserDict` collaborator): `del table[k]` first runs the
`on_key_del` hook, then removes the key from the backing mapping. -/
def Table.del {κ ν : Type} [DecidableEq κ] (cfg : TableConfig ν)
    (st : TableState κ ν) (k : κ) : TableState κ ν :=
  let s1 := Table.on_key_del cfg st k
  { s1 with data := eraseEntry s1.data k }

/-- Missing-key error carrying the offending key (Python `KeyError(key)`). -/
structure KeyErr (κ : Type) where
  key : κ
deriving DecidableEq, Repr

/-- Embedding of `Table.__missing__` (table.py 38-41): with a default factory
configured, return `self.default()`; otherwise raise `KeyError(key)`. -/
def Table.missing {κ ν : Type} (cfg : TableConfig ν) (k : κ) :
    Except (KeyErr κ) ν :=
  match cfg.default with
  | some d => Except.ok (d ())
  | none => Except.error ⟨k⟩

/-- Modelled from the spec (mapping contract via the external
`ManagedUserDict` collaborator and the Python dict protocol): `table[k]`
runs the `on_key_get` hook (sensors only), returns the stored value when the
key is present, and falls back to `__missing__` when it is absent.  Returns
the lookup outcome together with the table state left behind. -/
def Table.get {κ ν : Type} [DecidableEq κ] (cfg : TableConfig ν)
    (st : TableState κ ν) (k : κ) :
    Except (KeyErr κ) ν × TableState κ ν :=
  let s1 := Table.on_key_get st k
  match lookupD s1.data k with
  | some v => (Except.ok v, s1)
  | none => (Table.missing cfg k, s1)

/-- Containment check (`key in table`, table.py 43-44); does not invoke
`__missing__`. -/
def Table.has {κ ν : Type} [DecidableEq κ] (st : TableState κ ν) (k : κ) :
    Bool :=
  (lookupD st.data k).isSome

/-- Changelog entry as received by the store: a raw key and a raw value
(`none` being the deletion tombstone when values are optional). -/
structure ChangelogEvent (α β : Type) where
  key : α
  value : β
deriving DecidableEq, Repr

/-- Embedding of `Store.apply_changelog_batch` (memory.py 17-26):
`self.data.update((to_key(event.key), to_value(event.value)) for event in
batch)` — convert each entry with the supplied conversion functions and
apply the assignments in batch order, later entries overwriting earlier
ones for the same key. -/
def apply_changelog_batch {α β κ ω : Type} [DecidableEq κ]
    (batch : List (ChangelogEvent α β)) (toKey : α → κ) (toValue : β → ω)
    (data : List (κ × ω)) : List (κ × ω) :=
  batch.foldl (fun d e => updateEntry d (toKey e.key) (toValue e.value)) data

/-- Replay of a table changelog into a fresh in-memory Store:
`apply_changelog_batch` with identity conversions starting from the empty
mapping; tombstone entries carry the value `none`. -/
def replayChangelog {κ ν : Type} [DecidableEq κ]
    (entries : List (κ × Option ν)) : List (κ × Option ν) :=
  apply_changelog_batch (entries.map fun p => ⟨p.1, p.2⟩) id id []

/-- Sequence of table mutations. -/
inductive TableOp (κ ν : Type) where
  | setOp (k : κ) (v : ν)
  | delOp (k : κ)
deriving DecidableEq, Repr

/-- Run a sequence of mutations against a table state. -/
def runOps {κ ν : Type} [DecidableEq κ] (cfg : TableConfig ν) :
    List (TableOp κ ν) → TableState κ ν → TableState κ ν
  | [], st => st
  | op :: rest, st =>
    match op with
    | .setOp k v => runOps cfg rest (Table.set cfg st k v)
    | .delOp k => runOps cfg rest (Table.del cfg st k)

/-- Changelog entry produced by one table mutation. -/
def entryOf {κ ν : Type} : TableOp κ ν → κ × Option ν
  | .setOp k v => (k, some v)
  | .delOp k => (k, none)

/-! ## Table and store lemmas -/

theorem Table_set_data {κ ν : Type} [DecidableEq κ] (cfg : TableConfig ν)
    (st : TableState κ ν) (k : κ) (v : ν) :
    (Table.set cfg st k v).data = updateEntry st.data k v := by
  by_cases ht : cfg.hasTtl <;>
    simp [Table.set, Table.on_key_set, send_changelog, maybe_set_key_ttl, ht]

theorem Table_set_changelog {κ ν : Type} [DecidableEq κ] (cfg : TableConfig ν)
    (st : TableState κ ν) (k : κ) (v : ν) :
    (Table.set cfg st k v).changelog = st.changelog ++ [(k, some v)] := by
  by_cases ht : cfg.hasTtl <;>
    simp [Table.set, Table.on_key_set, send_changelog, maybe_set_key_ttl, ht]

theorem Table_del_data {κ ν : Type} [DecidableEq κ] (cfg : TableConfig ν)
    (st : TableState κ ν) (k : κ) :
    (Table.del cfg st k).data = eraseEntry st.data k := by
  by_cases ht : cfg.hasTtl <;>
    simp [Table.del, Table.on_key_del, send_changelog, maybe_del_key_ttl, ht]

theorem Table_del_changelog {κ ν : Type} [DecidableEq κ] (cfg : TableConfig ν)
    (st : TableState κ ν) (k : κ) :
    (Table.del cfg st k).changelog = st.changelog ++ [(k, none)] := by
  by_cases ht : cfg.hasTtl <;>
    simp [Table.del, Table.on_key_del, send_changelog, maybe_del_key_ttl, ht]

theorem runOps_changelog {κ ν : Type} [DecidableEq κ] (cfg : TableConfig ν)
    (ops : List (TableOp κ ν)) :
    ∀ st : TableState κ ν,
      (runOps cfg ops st).changelog = st.changelog ++ ops.map entryOf := by
  induction ops with
  | nil => intro st; simp [runOps]
  | cons op rest ih =>
    intro st
    cases op with
    | setOp k v =>
      rw [show runOps cfg (.setOp k v :: rest) st
            = runOps cfg rest (Table.set cfg st k v) from rfl,
        ih, Table_set_changelog]
      simp [entryOf]
    | delOp k =>
      rw [show runOps cfg (.delOp k :: rest) st
            = runOps cfg rest (Table.del cfg st k) from rfl,
        ih, Table_del_changelog]
      simp [entryOf]

theorem lookupD_runOps {κ ν : Type} [DecidableEq κ] (cfg : TableConfig ν)
    (ops : List (TableOp κ ν)) :
    ∀ (st : TableState κ ν) (q : κ),
      lookupD (runOps cfg ops st).data q =
        match lastVal (ops.map entryOf) q with
        | some (some v) => some v
        | some none => none
        | none => lookupD st.data q := by
  induction ops with
  | nil => intro st q; rfl
  | cons op rest ih =>
    intro st q
    cases op with
    | setOp k v =>
      rw [show runOps cfg (.setOp k v :: rest) st
            = runOps cfg rest (Table.set cfg st k v) from rfl, ih]
      cases hR : lastVal (rest.map entryOf) q with
      | some w => cases w <;> simp [lastVal, entryOf, hR]
      | none =>
        rw [Table_set_data, lookupD_updateEntry]
        by_cases hq : q = k
        · subst hq
          simp [lastVal, entryOf, hR]
        · simp [lastVal, entryOf, hR, hq]
    | delOp k =>
      rw [show runOps cfg (.delOp k :: rest) st
            = runOps cfg rest (Table.del cfg st k) from rfl, ih]
      cases hR : lastVal (rest.map entryOf) q with
      | some w => cases w <;> simp [lastVal, entryOf, hR]
      | none =>
        rw [Table_del_data, lookupD_eraseEntry]
        by_cases hq : q = k
        · subst hq
          simp [lastVal, entryOf, hR]
        · simp [lastVal, entryOf, hR, hq]

theorem apply_changelog_batch_cons {α β κ ω : Type} [DecidableEq κ]
    (e : ChangelogEvent α β) (rest : List (ChangelogEvent α β))
    (toKey : α → κ) (toValue : β → ω) (d : List (κ × ω)) :
    apply_changelog_batch (e :: rest) toKey toValue d
      = apply_changelog_batch rest toKey toValue
          (updateEntry d (toKey e.key) (toValue e.value)) := rfl

theorem lookupD_apply_changelog_batch {α β κ ω : Type} [DecidableEq κ]
    (batch : List (ChangelogEvent α β)) (toKey : α → κ) (toValue : β → ω) :
    ∀ (d : List (κ × ω)) (q : κ),
      lookupD (apply_changelog_batch batch toKey toValue d) q =
        match lastVal (batch.map fun e => (toKey e.key, toValue e.value)) q
        with
        | some w => some w
        | none => lookupD d q := by
  induction batch with
  | nil => intro d q; rfl
  | cons e rest ih =>
    intro d q
    rw [apply_changelog_batch_cons, ih]
    cases hR : lastVal (rest.map fun e => (toKey e.key, toValue e.value)) q
    with
    | some w => simp [lastVal, hR]
    | none =>
      rw [lookupD_updateEntry]
      by_cases hq : q = toKey e.key
      · simp [lastVal, hq ▸ hR, hq]
      · simp [lastVal, hR, hq]

theorem map_mk_eta {κ ν : Type} (entries : List (κ × Option ν)) :
    List.map (fun e : ChangelogEvent κ (Option ν) => (e.key, e.value))
      (entries.map fun p => ⟨p.1, p.2⟩) = entries := by
  induction entries with
  | nil => rfl
  | cons p rest ih => simp [ih]

/-! ## Claims about Table changelog and Store replay -/

/-- Claim C2 counterexample data: set key 0 to 1, then delete key 0. -/
def cfgNone : TableConfig Nat :=
  ⟨none, false⟩

/-- Claim C2 (as stated, refuted at a concrete input): after `set 0 1`
followed by `del 0`, key 0 is absent from the table, but replaying the
table's changelog into a fresh store leaves key 0 present, bound to the
null tombstone — so the replayed visible state is not equivalent to the
table's with deleted keys absent. -/
theorem claim2_counterexample :
    lookupD ((runOps cfgNone [TableOp.setOp 0 1, TableOp.delOp 0]
        emptyTable).data) 0 = none ∧
    lookupD (replayChangelog ((runOps cfgNone
        [TableOp.setOp 0 1, TableOp.delOp 0] emptyTable).changelog)) 0
      = some none ∧
    ¬ lookupD (replayChangelog ((runOps cfgNone
        [TableOp.setOp 0 1, TableOp.delOp 0] emptyTable).changelog)) 0
      = Option.map some (lookupD ((runOps cfgNone
          [TableOp.setOp 0 1, TableOp.delOp 0] emptyTable).data) 0) :=
  ⟨rfl, rfl, by decide⟩

/-- Claim C2 (amended): every `set`/`del` on a Table appends exactly one
changelog entry — `(k, v)` for a set, the tombstone `(k, none)` for a del —
and replaying the changelog of any mutation sequence into a fresh Store
reconstructs the last write per key in batch order: keys whose last
mutation was a set carry exactly the table's value, while keys whose last
mutation was a del are present in the store bound to the null tombstone
(the table itself lacks them). -/
theorem claim2_changelog_replay_lastwrite {κ ν : Type} [DecidableEq κ]
    (cfg : TableConfig ν) (ops : List (TableOp κ ν)) (q : κ) :
    (runOps cfg ops (emptyTable : TableState κ ν)).changelog
      = ops.map entryOf ∧
    lookupD (replayChangelog
        (runOps cfg ops (emptyTable : TableState κ ν)).changelog) q
      = lastVal (ops.map entryOf) q ∧
    lookupD (runOps cfg ops (emptyTable : TableState κ ν)).data q
      = (lastVal (ops.map entryOf) q).bind id := by
  have hcl : (runOps cfg ops (emptyTable : TableState κ ν)).changelog
      = ops.map entryOf := by
    simpa [emptyTable] using runOps_changelog cfg ops emptyTable
  refine ⟨hcl, ?_, ?_⟩
  · rw [hcl, replayChangelog, lookupD_apply_changelog_batch]
    simp only [id_eq]
    rw [map_mk_eta]
    cases hV : lastVal (ops.map entryOf) q <;> simp [hV, lookupD]
  · rw [lookupD_runOps]
    cases hR : lastVal (ops.map entryOf) q with
    | none => simp [emptyTable, lookupD]
    | some w => cases w <;> simp

/-- Claim C5: replaying the batch `[(k,1),(k,2),(j,3)]` (distinct keys `k`,
`j`) into a fresh store yields exactly the mapping `{k: 2, j: 3}` — the last
write per key wins in batch order — and replaying the same batch again
leaves the store unchanged. -/
theorem claim5_concrete_batch_lastwrite_idempotent {κ : Type}
    [DecidableEq κ] (k j : κ) (h : ¬ k = j) :
    (∀ q, lookupD (apply_changelog_batch
        [⟨k, 1⟩, ⟨k, 2⟩, ⟨j, 3⟩] id id ([] : List (κ × Nat))) q =
      if q = k then some 2 else if q = j then some 3 else none) ∧
    apply_changelog_batch [⟨k, (1 : Nat)⟩, ⟨k, 2⟩, ⟨j, 3⟩] id id
        (apply_changelog_batch [⟨k, 1⟩, ⟨k, 2⟩, ⟨j, 3⟩] id id
          ([] : List (κ × Nat)))
      = apply_changelog_batch [⟨k, 1⟩, ⟨k, 2⟩, ⟨j, 3⟩] id id
          ([] : List (κ × Nat)) := by
  have hjk : ¬ j = k := fun hh => h hh.symm
  constructor
  · intro q
    simp [apply_changelog_batch, updateEntry, hjk, lookupD]
  · simp [apply_changelog_batch, updateEntry, hjk]

theorem claim5_witness :
    ¬ (0 : Nat) = 1 ∧
    lookupD (apply_changelog_batch [⟨0, 1⟩, ⟨0, 2⟩, ⟨1, 3⟩] id id
        ([] : List (Nat × Nat))) 0 = some 2 ∧
    apply_changelog_batch [⟨0, (1 : Nat)⟩, ⟨0, 2⟩, ⟨1, 3⟩] id id
        (apply_changelog_batch [⟨0, 1⟩, ⟨0, 2⟩, ⟨1, 3⟩] id id
          ([] : List (Nat × Nat)))
      = apply_changelog_batch [⟨0, 1⟩, ⟨0, 2⟩, ⟨1, 3⟩] id id
          ([] : List (Nat × Nat)) :=
  ⟨by decide,
   (claim5_concrete_batch_lastwrite_idempotent 0 1 (by decide)).1 0,
   (claim5_concrete_batch_lastwrite_idempotent 0 1 (by decide)).2⟩

/-! ## Claims about the missing-key policy -/

/-- Claim C9: `table[k]` on a missing key returns the default-constructed
value when a default factory is configured, and raises a `KeyError`
identifying `k` when none is. -/
theorem claim9_missing_key_policy {κ ν : Type} [DecidableEq κ]
    (cfg : TableConfig ν) (st : TableState κ ν) (k : κ)
    (hmiss : lookupD st.data k = none) :
    (∀ d, cfg.default = some d →
      (Table.get cfg st k).1 = Except.ok (d ())) ∧
    (cfg.default = none → (Table.get cfg st k).1 = Except.error ⟨k⟩) := by
  constructor
  · intro d hd
    simp [Table.get, Table.on_key_get, Table.missing, hmiss, hd]
  · intro hd
    simp [Table.get, Table.on_key_get, Table.missing, hmiss, hd]

/-- Table configuration with a default factory producing 7. -/
def cfgSome7 : TableConfig Nat :=
  ⟨some (fun _ => 7), false⟩

theorem claim9_witness :
    lookupD (emptyTable : TableState Nat Nat).data 5 = none ∧
    (Table.get cfgSome7 (emptyTable : TableState Nat Nat) 5).1
      = Except.ok 7 ∧
    (Table.get cfgNone (emptyTable : TableState Nat Nat) 5).1
      = Except.error ⟨5⟩ :=
  ⟨rfl,
   (claim9_missing_key_policy cfgSome7 emptyTable 5 rfl).1 (fun _ => 7) rfl,
   (claim9_missing_key_policy cfgNone emptyTable 5 rfl).2 rfl⟩

/-- Claim C10: with a default factory configured, `table[k]` on a missing
key returns the default-constructed value without mutating the table: the
backing mapping and the changelog are untouched (only the get sensor
notification is emitted), and `k` is still reported absent afterwards. -/
theorem claim10_default_get_does_not_mutate {κ ν : Type} [DecidableEq κ]
    (cfg : TableConfig ν) (st : TableState κ ν) (k : κ) (d : Unit → ν)
    (hd : cfg.default = some d) (hmiss : lookupD st.data k = none) :
    (Table.get cfg st k).1 = Except.ok (d ()) ∧
    (Table.get cfg st k).2
      = { st with sensors := st.sensors ++ [SensorOp.onGet k] } ∧
    (Table.get cfg st k).2.data = st.data ∧
    (Table.get cfg st k).2.changelog = st.changelog ∧
    Table.has (Table.get cfg st k).2 k = false := by
  have hget : Table.get cfg st k
      = (Except.ok (d ()),
         { st with sensors := st.sensors ++ [SensorOp.onGet k] }) := by
    simp [Table.get, Table.on_key_get, Table.missing, hmiss, hd]
  refine ⟨by rw [hget], by rw [hget], by rw [hget], by rw [hget], ?_⟩
  rw [hget]
  simp [Table.has, hmiss]

theorem claim10_witness :
    cfgSome7.default = some (fun _ => (7 : Nat)) ∧
    lookupD (emptyTable : TableState Nat Nat).data 5 = none ∧
    (Table.get cfgSome7 (emptyTable : TableState Nat Nat) 5).1
      = Except.ok 7 ∧
    Table.has (Table.get cfgSome7 (emptyTable : TableState Nat Nat) 5).2 5
      = false :=
  ⟨rfl, rfl,
   (claim10_default_get_does_not_mutate cfgSome7 emptyTable 5
     (fun _ => 7) rfl rfl).1,
   (claim10_default_get_does_not_mutate cfgSome7 emptyTable 5
     (fun _ => 7) rfl rfl).2.2.2.2⟩

end Faust
